import Mathlib

/-!
Shallow embedding of the roster ingestion and reconciliation pipeline of
qrqcrew-notes-daemon (Rust), covering: CSV and HTML-table roster parsing
(src/csv_fetcher.rs, src/html_fetcher.rs), notes rendering and
timestamp-insensitive change detection (src/notes_generator.rs,
src/github.rs), the per-organization update preparation (src/main.rs),
the persistent nickname cache (src/nickname_cache.rs), and the QRZ
lookup adapter with session retry (src/qrz.rs).

Rust strings are modeled as lists of Unicode scalar values (`List Char`).
All substring searches used by the source (`find`, `contains`,
`starts_with`, `ends_with`, `split`) operate on ASCII needles, for which
char positions and byte positions coincide at every index the source
slices at, so the char-level model is faithful. `str::to_uppercase` /
`to_lowercase` are modeled char-wise (`Char.toUpper` / `Char.toLower`),
faithful on ASCII; the regex class `\d` is modeled as the ASCII digits.
-/

namespace Qrq

/-- Rust `String` / `&str`, modeled as a list of Unicode scalar values. -/
abbrev RStr := List Char

/-- Rust `str::trim_start` (drop leading whitespace). -/
def trimStart (s : RStr) : RStr := s.dropWhile Char.isWhitespace

/-- Rust `str::trim_end` (drop trailing whitespace). -/
def trimEnd (s : RStr) : RStr := (s.reverse.dropWhile Char.isWhitespace).reverse

/-- Rust `str::trim`. -/
def rustTrim (s : RStr) : RStr := trimEnd (trimStart s)

/-- Rust `str::to_uppercase`, modeled char-wise (exact on ASCII). -/
def rustUpper (s : RStr) : RStr := s.map Char.toUpper

/-- Rust `str::to_lowercase`, modeled char-wise (exact on ASCII). -/
def rustLower (s : RStr) : RStr := s.map Char.toLower

/-- Position of the first occurrence of `needle` in the remainder of the
haystack, as in Rust `str::find` (char-level; coincides with the byte
index at every slice point the source uses, since the needles are ASCII). -/
def findSub (needle : RStr) : RStr → Option Nat
  | [] => if needle.isPrefixOf ([] : RStr) then some 0 else none
  | c :: t =>
    if needle.isPrefixOf (c :: t) then some 0
    else (findSub needle t).map (· + 1)

/-- Rust `str::contains`. -/
def rustContains (hay needle : RStr) : Bool := (findSub needle hay).isSome

/-- Rust `str::ends_with`. -/
def rustEndsWith (s suffix : RStr) : Bool := suffix.isSuffixOf s

/-- Split at every newline character; a string with `n` newlines yields
`n + 1` segments (the raw decomposition underlying Rust `str::lines`). -/
def splitOnNl : RStr → List RStr
  | [] => [[]]
  | c :: t =>
    if c = '\n' then [] :: splitOnNl t
    else
      match splitOnNl t with
      | [] => [[c]]
      | seg :: segs => (c :: seg) :: segs

/-- Remove one trailing carriage return, as Rust `lines` does for a
segment that was terminated by a newline (handling `\r\n` endings). -/
def stripCr (l : RStr) : RStr :=
  match l.getLast? with
  | some '\r' => l.dropLast
  | _ => l

/-- Rust `str::lines`: split on `\n`, strip one `\r` from every segment
that was newline-terminated, and drop the final segment when it is empty
(i.e. when the string ends with a newline or is empty). A nonempty final
segment without a terminator is kept verbatim. -/
def rustLines (s : RStr) : List RStr :=
  let segs := splitOnNl s
  segs.dropLast.map stripCr ++
    match segs.getLast? with
    | some [] => []
    | some l => [l]
    | none => []

/-- Ordinal (code-point lexicographic) string order, Rust
`String::cmp`-as-`≤`. For UTF-8 encoded strings the byte-wise order Rust
uses coincides with this code-point order. -/
def strLe : RStr → RStr → Bool
  | [], _ => true
  | _ :: _, [] => false
  | a :: as, b :: bs => if a < b then true else if b < a then false else strLe as bs

/-- Character class `[A-Z]` (code points 65 to 90). -/
def isAsciiUpper (c : Char) : Bool := decide (65 ≤ c.toNat) && decide (c.toNat ≤ 90)

/-- Character class `\d`, modeled as the ASCII digits (48 to 57). -/
def isAsciiDigit (c : Char) : Bool := decide (48 ≤ c.toNat) && decide (c.toNat ≤ 57)

/-- Insert into a sorted list, after any elements it ties with. -/
def insertSorted {α : Type} (le : α → α → Bool) (a : α) : List α → List α
  | [] => [a]
  | b :: bs => if le b a then b :: insertSorted le a bs else a :: b :: bs

/-- Rust `Vec::sort_by` with a total comparator: a stable ascending
sort. A stable sort of a list under a total preorder is extensionally
unique, so this structurally recursive insertion sort is the same
function as the source's merge-based stable sort. -/
def sortBy {α : Type} (le : α → α → Bool) (l : List α) : List α :=
  l.foldl (fun acc a => insertSorted le a acc) []

/-- The callsign pattern used by both fetchers
(src/csv_fetcher.rs, src/html_fetcher.rs):
one to two letters, one digit, one to four letters, anchored both ends.
Since the classes are disjoint the match decomposition is forced. -/
def is_valid_callsign (s : RStr) : Bool :=
  let pre := s.takeWhile isAsciiUpper
  let rest := s.dropWhile isAsciiUpper
  decide (1 ≤ pre.length) && decide (pre.length ≤ 2) &&
    match rest with
    | [] => false
    | d :: tail =>
      isAsciiDigit d && decide (1 ≤ tail.length) && decide (tail.length ≤ 4)
        && tail.all isAsciiUpper

/-! ## CSV fetcher (src/csv_fetcher.rs)

The fetcher is modeled from the point at which the CSV crate has
produced the records: a roster is a list of records, each record a list
of fields. Records the CSV crate fails to parse are only logged by the
source and contribute nothing, so they are omitted from the model. -/

/-- Member record as defined in src/csv_fetcher.rs. -/
structure CsvMember where
  callsign : RStr
  qc_number : Nat
deriving DecidableEq

/-- Header-name normalization used throughout src/csv_fetcher.rs:
`to_lowercase` then `trim`. -/
def normHeaderField (h : RStr) : RStr := rustTrim (rustLower h)

/-- Column names accepted for the callsign column. -/
def callsignHeaderNames : List RStr :=
  ["call".toList, "callsign".toList, "call sign".toList]

/-- Column names accepted for the QC-number column. -/
def qcHeaderNames : List RStr :=
  ["qc #".toList, "qc#".toList, "qc number".toList, "number".toList, "#".toList]

/-- Whether a header field resolves the callsign column by name. -/
def callsignNameMatch (h : RStr) : Bool :=
  callsignHeaderNames.contains (normHeaderField h)

/-- Whether a header field resolves the QC-number column by name. -/
def qcNameMatch (h : RStr) : Bool := qcHeaderNames.contains (normHeaderField h)

/-- CsvFetcher::find_callsign_column: first name match wins; with no
name match it falls back to the first column whenever the header record
is nonempty, and only an empty header record yields `none`. -/
def find_callsign_column (headers : List RStr) : Option Nat :=
  match List.findIdx? callsignNameMatch headers with
  | some i => some i
  | none => if headers.isEmpty then none else some 0

/-- CsvFetcher::find_qc_number_column: name match only, no fallback. -/
def find_qc_number_column (headers : List RStr) : Option Nat :=
  List.findIdx? qcNameMatch headers

/-- Header-row detection in CsvFetcher::fetch_members: the first record
whose first field, lowercased and trimmed, is `call` or `callsign`. -/
def isHeaderRow (record : List RStr) : Bool :=
  match record.head? with
  | some first =>
    normHeaderField first == "call".toList
      || normHeaderField first == "callsign".toList
  | none => false

/-- Scan for the header row; data records are the records after it. -/
def findHeaderRow : List (List RStr) → Option (List RStr × List (List RStr))
  | [] => none
  | r :: rest => if isHeaderRow r then some (r, rest) else findHeaderRow rest

/-- Rust `str::parse::<u32>`: optional leading `+`, then one or more
ASCII digits, rejecting overflow past `2^32 - 1`. -/
def parseU32 (s : RStr) : Option Nat :=
  let digits := match s with
    | '+' :: rest => rest
    | _ => s
  if digits.isEmpty then none
  else if digits.all isAsciiDigit then
    let v := digits.foldl (fun acc c => acc * 10 + (c.toNat - '0'.toNat)) 0
    if v < 2 ^ 32 then some v else none
  else none

/-- One data-record step of CsvFetcher::fetch_members: validate and
deduplicate the callsign, parse the QC number, and either append the
member (recording the callsign as seen) or leave the state unchanged. -/
def csvStep (ccol qcol : Nat) (st : List RStr × List CsvMember)
    (record : List RStr) : List RStr × List CsvMember :=
  match record.get? ccol with
  | none => st
  | some callsign_raw =>
    let callsign := rustUpper (rustTrim callsign_raw)
    if callsign.isEmpty then st
    else if !is_valid_callsign callsign then st
    else if st.1.contains callsign then st
    else
      match record.get? qcol with
      | none => st
      | some num_str =>
        match parseU32 (rustTrim num_str) with
        | none => st
        | some n => (callsign :: st.1, st.2 ++ [⟨callsign, n⟩])

/-- CsvFetcher::fetch_members, from the parsed CSV records: locate the
header row, resolve both columns, fold the data records, and sort the
result ascending by callsign. -/
def fetch_members (rows : List (List RStr)) : Except RStr (List CsvMember) :=
  match findHeaderRow rows with
  | none => .error "Could not find header row in CSV".toList
  | some (headers, dataRows) =>
    match find_callsign_column headers with
    | none => .error "Could not find callsign column in CSV".toList
    | some ccol =>
      match find_qc_number_column headers with
      | none => .error "Could not find QC # column in CSV".toList
      | some qcol =>
        let st := dataRows.foldl (csvStep ccol qcol) ([], [])
        .ok (sortBy (fun a b => strLe a.callsign b.callsign) st.2)

/-! ## HTML fetcher (src/html_fetcher.rs)

Modeled from the point at which the DOM rows of `table.skcc_table` have
been selected: a table is a list of rows, each row the list of the text
contents of its `td` cells (header rows using `th` contribute an empty
cell list). -/

/-- Member record as defined in src/html_fetcher.rs and consumed by
src/notes_generator.rs and src/main.rs. -/
structure Member where
  callsign : RStr
  member_id : RStr
  nickname : Option RStr
deriving DecidableEq

/-- One row step of HtmlFetcher::parse_html: skip rows without data
cells or with too few columns; drop Silent-Key rows (`/SK` suffix on the
trimmed, uppercased callsign cell); strip everything from the first `/`
before validating; deduplicate; require a nonempty member id. -/
def htmlStep (ci ni : Nat) (st : List RStr × List Member)
    (cells : List RStr) : List RStr × List Member :=
  if cells.isEmpty then st
  else if cells.length ≤ ci || cells.length ≤ ni then st
  else
    let callsign_raw := rustUpper (rustTrim (cells.getD ci []))
    if rustEndsWith callsign_raw "/SK".toList then st
    else
      let callsign := rustTrim (callsign_raw.takeWhile (fun c => c ≠ '/'))
      if callsign.isEmpty then st
      else if !is_valid_callsign callsign then st
      else if st.1.contains callsign then st
      else
        let member_id := rustTrim (cells.getD ni [])
        if member_id.isEmpty then st
        else (callsign :: st.1, st.2 ++ [⟨callsign, member_id, none⟩])

/-- HtmlFetcher::parse_html over the selected table rows (the source
wraps the result in `Ok` unconditionally). -/
def parse_html (ci ni : Nat) (rowsCells : List (List RStr)) : List Member :=
  let st := rowsCells.foldl (htmlStep ci ni) ([], [])
  sortBy (fun a b => strLe a.callsign b.callsign) st.2

/-! ## Notes generator (src/notes_generator.rs)

NotesGenerator::generate is pure except for the embedded
`Utc::now()` timestamp, which is taken here as the parameter `ts`
(its `format` string contains no newline). The source emits a sequence
of newline-terminated pieces; `generateLines` lists the pieces and
`joinNl` appends each with its terminating newline, in the same order. -/

/-- One member entry line: `<callsign> <emoji> <label> #<id>`. -/
def memberLine (emoji label : RStr) (m : Member) : RStr :=
  m.callsign ++ " ".toList ++ emoji ++ " ".toList ++ label
    ++ " #".toList ++ m.member_id

/-- The newline-terminated pieces pushed by NotesGenerator::generate, in
order: label header, generation timestamp, the URL when nonempty, the
edit warning, a blank separator, then one line per member sorted
ascending by callsign. -/
def generateLines (emoji label : RStr) (url : Option RStr) (ts : RStr)
    (members : List Member) : List RStr :=
  let urlStr := url.getD []
  ("# ".toList ++ label ++ " Callsign Notes for Ham2K PoLo".toList) ::
    ("# Generated: ".toList ++ ts) ::
    ((if urlStr.isEmpty then [] else ["# ".toList ++ urlStr]) ++
      ("# Do not edit manually - this file is auto-generated".toList :: [] ::
        (sortBy (fun a b => strLe a.callsign b.callsign) members).map
          (memberLine emoji label)))

/-- Concatenate pieces, terminating each with a newline. -/
def joinNl (ls : List RStr) : RStr := ls.foldr (fun l acc => l ++ '\n' :: acc) []

/-- NotesGenerator::generate. -/
def generate (emoji label : RStr) (url : Option RStr) (ts : RStr)
    (members : List Member) : RStr :=
  joinNl (generateLines emoji label url ts members)

/-! ## Change detection (src/github.rs) -/

/-- The comment marker of the generation-timestamp line. -/
def generatedMarker : RStr := "# Generated:".toList

/-- Line filter used by GitHubClient::content_changed: keep the lines
that do not start with the generation-timestamp marker. -/
def filteredLines (s : RStr) : List RStr :=
  (rustLines s).filter (fun l => !generatedMarker.isPrefixOf l)

/-- GitHubClient::content_changed: `remote` is the outcome of
get_file_content (`none` = missing remote file, which counts as
changed); otherwise compare the timestamp-filtered line lists. -/
def content_changed (remote : Option RStr) (new : RStr) : Bool :=
  match remote with
  | some existing => filteredLines existing != filteredLines new
  | none => true

/-! ## Per-organization update preparation (src/main.rs)

prepare_org_update, from the point at which the roster fetch has
produced its member list. The enrichment step between fetch and render
only fills `nickname` fields, which NotesGenerator::generate never
reads, so the list is taken post-enrichment. The source builds the
notes content before testing `dry_run`; the returned value is the same
with the tests in this order. The resolved GitHub target only routes
the batch commit and is omitted here. -/

/-- The organization configuration fields prepare_org_update reads. -/
structure OrgCfg where
  name : RStr
  emoji : RStr
  label : RStr
  output_file : RStr

/-- A file queued for batch commit (PendingFile without its routing
target). -/
structure PendingFile where
  path : RStr
  content : RStr
  org_label : RStr
  member_count : Nat
deriving DecidableEq

/-- prepare_org_update: empty roster → skip with a warning; dry run →
no pending file; otherwise queue the rendered notes unconditionally.
The remote content is never consulted: content_changed has no caller. -/
def prepare_org_update (org : OrgCfg) (dry_run : Bool) (ts : RStr)
    (members : List Member) : Option PendingFile :=
  if members.isEmpty then none
  else if dry_run then none
  else
    some { path := org.output_file
           content := generate org.emoji org.label none ts members
           org_label := org.label
           member_count := members.length }

/-! ## Nickname cache (src/nickname_cache.rs)

Timestamps (`DateTime<Utc>`) and durations are modeled as integer
seconds. The entry map (`HashMap<String, CacheEntry>`) is modeled as an
association list whose insert replaces the existing binding. JSON
deserialization is performed by serde (an external collaborator), so
the parse outcome is a parameter of `load`. -/

/-- CacheEntry of src/nickname_cache.rs. -/
structure CacheEntry where
  nickname : Option RStr
  cached_at : Int
deriving DecidableEq

/-- Default cache TTL: 30 days, in seconds. -/
def ttlSeconds : Int := 30 * 24 * 60 * 60

/-- CacheEntry::is_expired at time `now`: age strictly above the TTL. -/
def isExpired (now : Int) (e : CacheEntry) (ttl : Int) : Bool :=
  decide (now - e.cached_at > ttl)

/-- The NicknameCache state (the backing path only routes I/O and is
omitted). -/
structure NicknameCache where
  entries : List (RStr × CacheEntry)
  ttl : Int
  dirty : Bool
deriving DecidableEq

/-- NicknameCache::get at time `now`: uppercase the key; a missing or
expired entry is a miss (`none`), a live entry yields its cached
optional nickname. -/
def NicknameCache.get (now : Int) (c : NicknameCache) (callsign : RStr) :
    Option (Option RStr) :=
  let key := rustUpper callsign
  match c.entries.lookup key with
  | none => none
  | some e => if isExpired now e c.ttl then none else some e.nickname

/-- NicknameCache::insert at time `now`: upsert under the uppercased
key with `cached_at = now`, marking the cache dirty. -/
def NicknameCache.insert (now : Int) (c : NicknameCache) (callsign : RStr)
    (nickname : Option RStr) : NicknameCache :=
  let key := rustUpper callsign
  { c with
    entries := (key, ⟨nickname, now⟩) :: c.entries.filter (fun p => p.1 ≠ key)
    dirty := true }

/-- What the filesystem returns for the cache file. -/
inductive FileState where
  | missing
  | readErr
  | content (s : RStr)

/-- NicknameCache::load at time `now`: a missing file or a file whose
trimmed content is empty yields an empty cache; a read failure or a
serde parse failure is an error; otherwise the parsed entries are kept
with the expired ones pruned. The loaded cache is clean (not dirty). -/
def NicknameCache.load (now : Int) (fs : FileState)
    (parse : RStr → Option (List (RStr × CacheEntry))) :
    Except RStr NicknameCache :=
  match fs with
  | .missing => .ok ⟨[], ttlSeconds, false⟩
  | .readErr => .error "Failed to read cache file".toList
  | .content s =>
    if (rustTrim s).isEmpty then .ok ⟨[], ttlSeconds, false⟩
    else
      match parse s with
      | none => .error "Failed to parse cache file".toList
      | some entries =>
        .ok ⟨entries.filter (fun p => !isExpired now p.2 ttlSeconds),
             ttlSeconds, false⟩

/-- The cache-loading step of main (src/main.rs lines 87-92): a load
error falls back to `NicknameCache::load("/dev/null")`, and /dev/null
exists with empty content, so the fallback is the empty cache. -/
def mainLoadCache (now : Int) (fs : FileState)
    (parse : RStr → Option (List (RStr × CacheEntry))) : NicknameCache :=
  match NicknameCache.load now fs parse with
  | .ok c => c
  | .error _ => ⟨[], ttlSeconds, false⟩

/-! ## QRZ lookup adapter (src/qrz.rs)

The HTTP collaborator is abstracted as an environment: `login i` is the
outcome of the i-th authentication round-trip, and `respond key` is the
response text of a lookup issued with session token `key` (the callsign
is fixed for one lookup). The state carries the cached session token;
`requestTokens` records, as a trace, the token used by each lookup
request issued, so that retry counts are observable. -/

/-- QrzClient::extract_fname: slice between the first `<fname>` and the
first following `</fname>`; an empty or absent first name is `none`. -/
def extract_fname (xml : RStr) : Option RStr :=
  match findSub "<fname>".toList xml with
  | none => none
  | some start =>
    match findSub "</fname>".toList (xml.drop start) with
    | none => none
    | some e =>
      let fname := ((xml.drop start).drop 7).take (e - 7)
      if fname.isEmpty then none else some fname

/-- Session expiry or invalidity signal in a lookup response. -/
def signalsSessionExpiry (t : RStr) : Bool :=
  rustContains t "Session Timeout".toList
    || rustContains t "Invalid session key".toList

/-- The not-found signal in a lookup response. -/
def signalsNotFound (t : RStr) : Bool :=
  rustContains t "<Error>Not found".toList

/-- The lookup collaborator. -/
structure QrzEnv where
  login : Nat → Except RStr RStr
  respond : RStr → RStr

/-- The adapter state: the cached session token, the number of
authentication round-trips performed, and the trace of session tokens
used by issued lookup requests. -/
structure QrzState where
  session : Option RStr
  logins : Nat
  requestTokens : List RStr
deriving DecidableEq

/-- QrzClient::get_session_key: reuse the cached token, otherwise
perform one authentication round-trip and cache its token. -/
def get_session_key (env : QrzEnv) (st : QrzState) :
    QrzState × Except RStr RStr :=
  match st.session with
  | some key => (st, .ok key)
  | none =>
    match env.login st.logins with
    | .ok key => ({ st with session := some key, logins := st.logins + 1 }, .ok key)
    | .error e => ({ st with logins := st.logins + 1 }, .error e)

/-- QrzClient::lookup_nickname_inner: bail out past one retry; obtain a
session token; issue the request; on an expiry signal clear the session
and recurse with `retry_count + 1`; a not-found signal is `Ok(None)`;
otherwise return the extracted first name. -/
def lookup_nickname_inner (env : QrzEnv) (st : QrzState) (retry_count : Nat) :
    QrzState × Except RStr (Option RStr) :=
  if retry_count > 1 then (st, .error "QRZ lookup failed after retries".toList)
  else
    match get_session_key env st with
    | (st1, .error e) => (st1, .error e)
    | (st1, .ok key) =>
      let text := env.respond key
      let st2 := { st1 with requestTokens := st1.requestTokens ++ [key] }
      if signalsSessionExpiry text then
        lookup_nickname_inner env { st2 with session := none } (retry_count + 1)
      else if signalsNotFound text then (st2, .ok none)
      else (st2, .ok (extract_fname text))
termination_by 2 - retry_count
decreasing_by omega

/-- QrzClient::lookup_nickname. -/
def lookup_nickname (env : QrzEnv) (st : QrzState) :
    QrzState × Except RStr (Option RStr) :=
  lookup_nickname_inner env st 0

/-! ## Order lemmas for the ordinal string comparison -/

theorem strLe_cons {x y : Char} {xs ys : RStr} :
    strLe (x :: xs) (y :: ys) = true ↔ x < y ∨ (x = y ∧ strLe xs ys = true) := by
  simp only [strLe]
  by_cases h1 : x < y
  · simp [h1]
  · by_cases h2 : y < x
    · have : x ≠ y := ne_of_gt h2
      simp [h1, h2, this]
    · have hxy : x = y := le_antisymm (not_lt.mp h2) (not_lt.mp h1)
      simp [h1, h2, hxy]

theorem strLe_trans : ∀ a b c, strLe a b = true → strLe b c = true →
    strLe a c = true := by
  intro a
  induction a with
  | nil => intro b c _ _; rfl
  | cons x xs ih =>
    intro b c hab hbc
    cases b with
    | nil => simp [strLe] at hab
    | cons y ys =>
      cases c with
      | nil => simp [strLe] at hbc
      | cons z zs =>
        rcases strLe_cons.mp hab with h | ⟨rfl, h⟩ <;>
          rcases strLe_cons.mp hbc with h' | ⟨rfl, h'⟩
        · exact strLe_cons.mpr (Or.inl (lt_trans h h'))
        · exact strLe_cons.mpr (Or.inl h)
        · exact strLe_cons.mpr (Or.inl h')
        · exact strLe_cons.mpr (Or.inr ⟨rfl, ih _ _ h h'⟩)

theorem strLe_total : ∀ a b, (strLe a b || strLe b a) = true := by
  intro a
  induction a with
  | nil => intro b; simp [strLe]
  | cons x xs ih =>
    intro b
    cases b with
    | nil => simp [strLe]
    | cons y ys =>
      rcases lt_trichotomy x y with h | rfl | h
      · simp [strLe_cons, h]
      · rcases Bool.or_eq_true _ _ |>.mp (ih ys) with h' | h'
        · simp [strLe_cons, h']
        · simp [strLe_cons, h']
      · simp [strLe_cons, h]

/-! ## Lemmas about the stable sort -/

theorem insertSorted_perm {α : Type} (le : α → α → Bool) (a : α) (l : List α) :
    (insertSorted le a l).Perm (a :: l) := by
  induction l with
  | nil => exact List.Perm.refl _
  | cons b bs ih =>
    simp only [insertSorted]
    split
    · exact (ih.cons b).trans (List.Perm.swap a b bs)
    · exact List.Perm.refl _

theorem sortBy_perm_aux {α : Type} (le : α → α → Bool) :
    ∀ (l acc : List α),
      (l.foldl (fun acc a => insertSorted le a acc) acc).Perm (acc ++ l) := by
  intro l
  induction l with
  | nil => intro acc; simp
  | cons x xs ih =>
    intro acc
    simp only [List.foldl_cons]
    refine (ih (insertSorted le x acc)).trans ?_
    refine (List.Perm.append_right xs (insertSorted_perm le x acc)).trans ?_
    exact (@List.perm_middle _ x acc xs).symm

theorem sortBy_perm {α : Type} (le : α → α → Bool) (l : List α) :
    (sortBy le l).Perm l := by
  simpa using sortBy_perm_aux le l []

theorem mem_insertSorted {α : Type} (le : α → α → Bool) (a x : α) (l : List α) :
    x ∈ insertSorted le a l ↔ x = a ∨ x ∈ l := by
  rw [(insertSorted_perm le a l).mem_iff]
  simp

theorem insertSorted_pairwise {α : Type} (le : α → α → Bool)
    (htrans : ∀ a b c, le a b = true → le b c = true → le a c = true)
    (htotal : ∀ a b, (le a b || le b a) = true)
    (a : α) (l : List α) (hl : l.Pairwise (le · · = true)) :
    (insertSorted le a l).Pairwise (le · · = true) := by
  induction l with
  | nil => simp [insertSorted]
  | cons b bs ih =>
    rcases List.pairwise_cons.mp hl with ⟨hb, hbs⟩
    simp only [insertSorted]
    split
    · refine List.pairwise_cons.mpr ⟨?_, ih hbs⟩
      intro x hx
      rcases (mem_insertSorted le a x bs).mp hx with rfl | hx
      · assumption
      · exact hb x hx
    · refine List.pairwise_cons.mpr ⟨?_, hl⟩
      intro x hx
      have hab : le a b = true := by
        rcases Bool.or_eq_true _ _ |>.mp (htotal a b) with h | h
        · exact h
        · exact absurd h (by simp_all)
      rcases List.mem_cons.mp hx with rfl | hx
      · exact hab
      · exact htrans a b x hab (hb x hx)

theorem sortBy_pairwise {α : Type} (le : α → α → Bool)
    (htrans : ∀ a b c, le a b = true → le b c = true → le a c = true)
    (htotal : ∀ a b, (le a b || le b a) = true)
    (l : List α) : (sortBy le l).Pairwise (le · · = true) := by
  suffices h : ∀ (l acc : List α), acc.Pairwise (le · · = true) →
      (l.foldl (fun acc a => insertSorted le a acc) acc).Pairwise (le · · = true) by
    exact h l [] (by simp)
  intro l
  induction l with
  | nil => intro acc h; simpa using h
  | cons x xs ih =>
    intro acc h
    simp only [List.foldl_cons]
    exact ih _ (insertSorted_pairwise le htrans htotal x acc h)

/-! ## Valid callsigns are fixed by uppercasing -/

theorem toUpper_of_isAsciiUpper {c : Char} (h : isAsciiUpper c = true) :
    c.toUpper = c := by
  simp [isAsciiUpper] at h
  simp [Char.toUpper]
  omega

theorem toUpper_of_isAsciiDigit {c : Char} (h : isAsciiDigit c = true) :
    c.toUpper = c := by
  simp [isAsciiDigit] at h
  simp [Char.toUpper]
  omega

theorem valid_upper_fixed {s : RStr} (h : is_valid_callsign s = true) :
    rustUpper s = s := by
  simp only [is_valid_callsign] at h
  cases hrest : s.dropWhile isAsciiUpper with
  | nil => rw [hrest] at h; simp at h
  | cons d tail =>
    rw [hrest] at h
    simp only [Bool.and_eq_true, decide_eq_true_eq, List.all_eq_true] at h
    obtain ⟨⟨_, _⟩, ⟨⟨hd, _⟩, _⟩, htail⟩ := h
    have key : s = s.takeWhile isAsciiUpper ++ d :: tail := by
      rw [← hrest, List.takeWhile_append_dropWhile]
    rw [key]
    unfold rustUpper
    rw [List.map_append]
    congr 1
    · have : ∀ x ∈ s.takeWhile isAsciiUpper, Char.toUpper x = x := fun x hx =>
        toUpper_of_isAsciiUpper (List.mem_takeWhile_imp hx)
      calc (s.takeWhile isAsciiUpper).map Char.toUpper
          = (s.takeWhile isAsciiUpper).map id := List.map_congr_left this
        _ = s.takeWhile isAsciiUpper := List.map_id _
    · simp only [List.map_cons, toUpper_of_isAsciiDigit hd]
      congr 1
      calc tail.map Char.toUpper
          = tail.map id :=
            List.map_congr_left fun x hx => toUpper_of_isAsciiUpper (htail x hx)
        _ = tail := List.map_id _

/-! ## Parser fold invariants -/

theorem csvStep_inv (ccol qcol : Nat) (seen : List RStr) (ms : List CsvMember)
    (r : List RStr)
    (h1 : ∀ m ∈ ms, is_valid_callsign m.callsign = true ∧ m.callsign ∈ seen)
    (h2 : ms.Pairwise (fun a b => a.callsign ≠ b.callsign)) :
    (∀ m ∈ (csvStep ccol qcol (seen, ms) r).2,
        is_valid_callsign m.callsign = true ∧
        m.callsign ∈ (csvStep ccol qcol (seen, ms) r).1) ∧
    (csvStep ccol qcol (seen, ms) r).2.Pairwise
      (fun a b => a.callsign ≠ b.callsign) := by
  unfold csvStep
  cases hr : r.get? ccol with
  | none => exact ⟨h1, h2⟩
  | some raw =>
    dsimp only
    split
    · exact ⟨h1, h2⟩
    split
    · exact ⟨h1, h2⟩
    next hv0 =>
    have hv : is_valid_callsign (rustUpper (rustTrim raw)) = true := by
      simpa using hv0
    split
    · exact ⟨h1, h2⟩
    next hc =>
    split
    · exact ⟨h1, h2⟩
    next numStr hq =>
    split
    · exact ⟨h1, h2⟩
    next n hp =>
    have hnot : rustUpper (rustTrim raw) ∉ seen := by
      intro hmem
      rw [show List.contains seen (rustUpper (rustTrim raw)) =
            List.elem (rustUpper (rustTrim raw)) seen from rfl] at hc
      simp [List.elem_iff.mpr hmem] at hc
      exact hc hmem
    constructor
    · intro m hm
      rcases List.mem_append.mp hm with hm | hm
      · obtain ⟨hmv, hms⟩ := h1 m hm
        exact ⟨hmv, List.mem_cons_of_mem _ hms⟩
      · simp only [List.mem_singleton] at hm
        subst hm
        exact ⟨hv, List.mem_cons_self _ _⟩
    · show List.Pairwise _ (ms ++ [⟨rustUpper (rustTrim raw), n⟩])
      rw [List.pairwise_append]
      refine ⟨h2, by simp, ?_⟩
      intro a ha b hb
      simp only [List.mem_singleton] at hb
      subst hb
      obtain ⟨_, has⟩ := h1 a ha
      intro hEq
      rw [hEq] at has
      exact hnot has

theorem csv_foldl_inv (ccol qcol : Nat) :
    ∀ (rows : List (List RStr)) (seen : List RStr) (ms : List CsvMember),
      (∀ m ∈ ms, is_valid_callsign m.callsign = true ∧ m.callsign ∈ seen) →
      ms.Pairwise (fun a b => a.callsign ≠ b.callsign) →
      (∀ m ∈ (rows.foldl (csvStep ccol qcol) (seen, ms)).2,
          is_valid_callsign m.callsign = true ∧
          m.callsign ∈ (rows.foldl (csvStep ccol qcol) (seen, ms)).1) ∧
      (rows.foldl (csvStep ccol qcol) (seen, ms)).2.Pairwise
        (fun a b => a.callsign ≠ b.callsign) := by
  intro rows
  induction rows with
  | nil => intro seen ms h1 h2; exact ⟨h1, h2⟩
  | cons r rest ih =>
    intro seen ms h1 h2
    simp only [List.foldl_cons]
    obtain ⟨g1, g2⟩ := csvStep_inv ccol qcol seen ms r h1 h2
    have := ih (csvStep ccol qcol (seen, ms) r).1
      (csvStep ccol qcol (seen, ms) r).2 g1 g2
    simpa using this

theorem htmlStep_inv (ci ni : Nat) (seen : List RStr) (ms : List Member)
    (cells : List RStr)
    (h1 : ∀ m ∈ ms, is_valid_callsign m.callsign = true ∧ m.callsign ∈ seen)
    (h2 : ms.Pairwise (fun a b => a.callsign ≠ b.callsign)) :
    (∀ m ∈ (htmlStep ci ni (seen, ms) cells).2,
        is_valid_callsign m.callsign = true ∧
        m.callsign ∈ (htmlStep ci ni (seen, ms) cells).1) ∧
    (htmlStep ci ni (seen, ms) cells).2.Pairwise
      (fun a b => a.callsign ≠ b.callsign) := by
  unfold htmlStep
  dsimp only
  split
  · exact ⟨h1, h2⟩
  split
  · exact ⟨h1, h2⟩
  split
  · exact ⟨h1, h2⟩
  split
  · exact ⟨h1, h2⟩
  split
  · exact ⟨h1, h2⟩
  next hv0 =>
  have hv : is_valid_callsign (rustTrim
      ((rustUpper (rustTrim (cells.getD ci []))).takeWhile
        (fun c => c ≠ '/'))) = true := by
    simpa using hv0
  split
  · exact ⟨h1, h2⟩
  next hc =>
  split
  · exact ⟨h1, h2⟩
  next hid =>
  have hnot : rustTrim ((rustUpper (rustTrim (cells.getD ci []))).takeWhile
      (fun c => c ≠ '/')) ∉ seen := by
    intro hmem
    have h' : List.contains seen (rustTrim
        ((rustUpper (rustTrim (cells.getD ci []))).takeWhile
          (fun c => c ≠ '/'))) = true := List.elem_iff.mpr hmem
    rw [h'] at hc
    exact absurd hc (by decide)
  constructor
  · intro m hm
    rcases List.mem_append.mp hm with hm | hm
    · obtain ⟨hmv, hms⟩ := h1 m hm
      exact ⟨hmv, List.mem_cons_of_mem _ hms⟩
    · simp only [List.mem_singleton] at hm
      subst hm
      exact ⟨hv, List.mem_cons_self _ _⟩
  · show List.Pairwise _ (ms ++ [_])
    rw [List.pairwise_append]
    refine ⟨h2, by simp, ?_⟩
    intro a ha b hb
    simp only [List.mem_singleton] at hb
    subst hb
    obtain ⟨_, has⟩ := h1 a ha
    intro hEq
    rw [hEq] at has
    exact hnot has

theorem html_foldl_inv (ci ni : Nat) :
    ∀ (rows : List (List RStr)) (seen : List RStr) (ms : List Member),
      (∀ m ∈ ms, is_valid_callsign m.callsign = true ∧ m.callsign ∈ seen) →
      ms.Pairwise (fun a b => a.callsign ≠ b.callsign) →
      (∀ m ∈ (rows.foldl (htmlStep ci ni) (seen, ms)).2,
          is_valid_callsign m.callsign = true ∧
          m.callsign ∈ (rows.foldl (htmlStep ci ni) (seen, ms)).1) ∧
      (rows.foldl (htmlStep ci ni) (seen, ms)).2.Pairwise
        (fun a b => a.callsign ≠ b.callsign) := by
  intro rows
  induction rows with
  | nil => intro seen ms h1 h2; exact ⟨h1, h2⟩
  | cons r rest ih =>
    intro seen ms h1 h2
    simp only [List.foldl_cons]
    obtain ⟨g1, g2⟩ := htmlStep_inv ci ni seen ms r h1 h2
    have := ih (htmlStep ci ni (seen, ms) r).1
      (htmlStep ci ni (seen, ms) r).2 g1 g2
    simpa using this

/-- The success shape of fetch_members: the result is always the sorted
fold of the data records for some resolved columns. -/
theorem fetch_members_ok_shape {rows : List (List RStr)} {ms : List CsvMember}
    (h : fetch_members rows = .ok ms) :
    ∃ ccol qcol headers dataRows,
      findHeaderRow rows = some (headers, dataRows) ∧
      ms = sortBy (fun a b => strLe a.callsign b.callsign)
        (dataRows.foldl (csvStep ccol qcol) ([], [])).2 := by
  unfold fetch_members at h
  split at h
  · simp at h
  next headers dataRows hh =>
    split at h
    · simp at h
    next ccol hcc =>
      split at h
      · simp at h
      next qcol hqc =>
        simp only [Except.ok.injEq] at h
        exact ⟨ccol, qcol, headers, dataRows, hh, h.symm⟩

/-! ## Line-splitting lemmas for the change detection -/

theorem splitOnNl_ne_nil : ∀ s : RStr, splitOnNl s ≠ [] := by
  intro s
  cases s with
  | nil => simp [splitOnNl]
  | cons c t =>
    unfold splitOnNl
    split
    · simp
    · split <;> simp

theorem splitOnNl_append_nl : ∀ s t : RStr,
    splitOnNl (s ++ '\n' :: t) = splitOnNl s ++ splitOnNl t := by
  intro s
  induction s with
  | nil => intro t; simp [splitOnNl]
  | cons c s' ih =>
    intro t
    by_cases hc : c = '\n'
    · subst hc
      show splitOnNl ('\n' :: (s' ++ '\n' :: t)) = _
      rw [show splitOnNl ('\n' :: (s' ++ '\n' :: t)) =
            [] :: splitOnNl (s' ++ '\n' :: t) by simp [splitOnNl]]
      rw [ih]
      simp [splitOnNl]
    · show splitOnNl (c :: (s' ++ '\n' :: t)) = _
      rw [show splitOnNl (c :: (s' ++ '\n' :: t)) =
            match splitOnNl (s' ++ '\n' :: t) with
            | [] => [[c]]
            | seg :: segs => (c :: seg) :: segs by simp [splitOnNl, hc]]
      rw [ih]
      rw [show splitOnNl (c :: s') =
            match splitOnNl s' with
            | [] => [[c]]
            | seg :: segs => (c :: seg) :: segs by simp [splitOnNl, hc]]
      cases hs : splitOnNl s' with
      | nil => exact absurd hs (splitOnNl_ne_nil s')
      | cons seg segs => simp

theorem splitOnNl_no_nl : ∀ s : RStr, '\n' ∉ s → splitOnNl s = [s] := by
  intro s
  induction s with
  | nil => intro _; rfl
  | cons c t ih =>
    intro h
    have hc : c ≠ '\n' := fun hEq => h (hEq ▸ List.mem_cons_self c t)
    have ht : '\n' ∉ t := fun hm => h (List.mem_cons_of_mem c hm)
    unfold splitOnNl
    rw [if_neg hc, ih ht]

/-- Rust `lines` of a newline-terminated prefix followed by the rest:
the prefix contributes its carriage-return-stripped segments, the rest
contributes its own lines. -/
theorem rustLines_append_nl (s t : RStr) :
    rustLines (s ++ '\n' :: t) = (splitOnNl s).map stripCr ++ rustLines t := by
  unfold rustLines
  dsimp only
  rw [splitOnNl_append_nl]
  have hne : splitOnNl t ≠ [] := splitOnNl_ne_nil t
  obtain ⟨x, hx⟩ : ∃ x, (splitOnNl t).getLast? = some x := by
    cases h : (splitOnNl t).getLast? with
    | none => exact absurd (List.getLast?_eq_none_iff.mp h) hne
    | some x => exact ⟨x, rfl⟩
  rw [List.getLast?_append, hx]
  rw [List.dropLast_append, List.isEmpty_eq_false.mpr hne, if_neg (by simp)]
  rw [List.map_append, List.append_assoc]
  rfl

theorem isPrefixOf_append_right (p t : RStr) : p.isPrefixOf (p ++ t) = true := by
  induction p with
  | nil => simp
  | cons c p' ih => simp [List.isPrefixOf, ih]

theorem stripCr_append_left (p x : RStr) (hx : x ≠ []) :
    ∃ y, stripCr (p ++ x) = p ++ y := by
  unfold stripCr
  split
  · rw [List.dropLast_append, List.isEmpty_eq_false.mpr hx, if_neg (by simp)]
    exact ⟨x.dropLast, rfl⟩
  · exact ⟨x, rfl⟩

/-- The generation-timestamp line keeps its marker after the
carriage-return strip, whatever the timestamp text is. -/
theorem marker_stripCr_generated (ts : RStr) :
    generatedMarker.isPrefixOf (stripCr ("# Generated: ".toList ++ ts)) = true := by
  have hsplit : "# Generated: ".toList = generatedMarker ++ [' '] := by rfl
  rw [hsplit, List.append_assoc]
  obtain ⟨y, hy⟩ := stripCr_append_left generatedMarker ([' '] ++ ts) (by simp)
  rw [hy]
  exact isPrefixOf_append_right _ _

/-- Filtering drops the singleton generation-timestamp line. -/
theorem filter_generated_single (ts : RStr) :
    List.filter (fun l => !generatedMarker.isPrefixOf l)
      [stripCr ("# Generated: ".toList ++ ts)] = [] := by
  have h := marker_stripCr_generated ts
  rw [List.filter_cons, if_neg]
  · rfl
  · simp only [Bool.not_eq_true']
    rw [h]
    simp

/-! ## Claim theorems -/

/-- C8: for every input row order, the parsed member list returned by
either parser (fetch_members on success, parse_html) is sorted ascending
by callsign under the ordinal string comparison. -/
theorem parsed_output_sorted_by_callsign :
    (∀ rows ms, fetch_members rows = .ok ms →
      ms.Pairwise (fun a b => strLe a.callsign b.callsign = true)) ∧
    (∀ ci ni rc, (parse_html ci ni rc).Pairwise
      (fun a b => strLe a.callsign b.callsign = true)) := by
  constructor
  · intro rows ms h
    obtain ⟨ccol, qcol, headers, dataRows, _, hms⟩ := fetch_members_ok_shape h
    rw [hms]
    exact sortBy_pairwise (fun a b : CsvMember => strLe a.callsign b.callsign)
      (fun a b c hab hbc => strLe_trans _ _ _ hab hbc)
      (fun a b => strLe_total _ _) _
  · intro ci ni rc
    unfold parse_html
    exact sortBy_pairwise (fun a b : Member => strLe a.callsign b.callsign)
      (fun a b c hab hbc => strLe_trans _ _ _ hab hbc)
      (fun a b => strLe_total _ _) _

/-- Witness for C8: the CSV scenario `Call, QC #` with rows
`w6jsv, 10` and `K4MW, 1` parses to a list sorted by callsign. -/
theorem parsed_output_sorted_by_callsign_witness :
    List.Pairwise (fun a b : CsvMember => strLe a.callsign b.callsign = true)
      [⟨"K4MW".toList, 1⟩, ⟨"W6JSV".toList, 10⟩] :=
  parsed_output_sorted_by_callsign.1
    [["Call".toList, "QC #".toList],
     ["w6jsv".toList, "10".toList],
     ["K4MW".toList, "1".toList]]
    [⟨"K4MW".toList, 1⟩, ⟨"W6JSV".toList, 10⟩] (by rfl)

/-- C3: for every CSV or HTML input, the parsed member list contains no
two entries with case-insensitively equal callsigns (first occurrence
wins at parse time), and every callsign in the result matches the
callsign grammar after trimming and uppercasing (the stored callsign is
already the trimmed, uppercased form). -/
theorem parsed_members_dedup_and_valid :
    (∀ rows ms, fetch_members rows = .ok ms →
      ms.Pairwise (fun a b => rustUpper a.callsign ≠ rustUpper b.callsign) ∧
      ∀ m ∈ ms, is_valid_callsign m.callsign = true) ∧
    (∀ ci ni rc,
      (parse_html ci ni rc).Pairwise
        (fun a b => rustUpper a.callsign ≠ rustUpper b.callsign) ∧
      ∀ m ∈ parse_html ci ni rc, is_valid_callsign m.callsign = true) := by
  constructor
  · intro rows ms h
    obtain ⟨ccol, qcol, headers, dataRows, _, hms⟩ := fetch_members_ok_shape h
    obtain ⟨hmem, hpw⟩ := csv_foldl_inv ccol qcol dataRows [] []
      (by simp) (by simp)
    have hperm := sortBy_perm (fun a b : CsvMember => strLe a.callsign b.callsign)
      (dataRows.foldl (csvStep ccol qcol) ([], [])).2
    subst hms
    have hup : (dataRows.foldl (csvStep ccol qcol) ([], [])).2.Pairwise
        (fun a b => rustUpper a.callsign ≠ rustUpper b.callsign) := by
      refine List.Pairwise.imp_of_mem ?_ hpw
      intro a b ha hb hne
      rw [valid_upper_fixed (hmem a ha).1, valid_upper_fixed (hmem b hb).1]
      exact hne
    constructor
    · exact (hperm.pairwise_iff (fun h => Ne.symm h)).mpr hup
    · intro m hm
      exact (hmem m (hperm.mem_iff.mp hm)).1
  · intro ci ni rc
    obtain ⟨hmem, hpw⟩ := html_foldl_inv ci ni rc [] [] (by simp) (by simp)
    have hperm := sortBy_perm (fun a b : Member => strLe a.callsign b.callsign)
      (rc.foldl (htmlStep ci ni) ([], [])).2
    have hup : (rc.foldl (htmlStep ci ni) ([], [])).2.Pairwise
        (fun a b => rustUpper a.callsign ≠ rustUpper b.callsign) := by
      refine List.Pairwise.imp_of_mem ?_ hpw
      intro a b ha hb hne
      rw [valid_upper_fixed (hmem a ha).1, valid_upper_fixed (hmem b hb).1]
      exact hne
    constructor
    · exact (hperm.pairwise_iff (fun h => Ne.symm h)).mpr hup
    · intro m hm
      exact (hmem m (hperm.mem_iff.mp hm)).1

/-- A detected header row always name-matches the callsign column at
index 0: the header-row test accepts only `call` or `callsign` as the
normalized first field, and both are callsign column names. -/
theorem findHeaderRow_name_match :
    ∀ (rows : List (List RStr)) (headers : List RStr)
      (dataRows : List (List RStr)),
      findHeaderRow rows = some (headers, dataRows) →
      List.findIdx? callsignNameMatch headers = some 0 := by
  intro rows
  induction rows with
  | nil => intro headers dataRows h; simp [findHeaderRow] at h
  | cons r rest ih =>
    intro headers dataRows h
    unfold findHeaderRow at h
    split at h
    next hh =>
      simp only [Option.some.injEq, Prod.mk.injEq] at h
      obtain ⟨rfl, rfl⟩ := h
      unfold isHeaderRow at hh
      cases r with
      | nil => simp at hh
      | cons first rest' =>
        simp only [List.head?_cons] at hh
        have hmatch : callsignNameMatch first = true := by
          rcases Bool.or_eq_true _ _ |>.mp hh with h' | h'
          · have := eq_of_beq h'
            unfold callsignNameMatch
            rw [this]
            rfl
          · have := eq_of_beq h'
            unfold callsignNameMatch
            rw [this]
            rfl
        simp [List.findIdx?, hmatch]
    next => exact ih headers dataRows h

/-- C2 (amended): both columns are resolved by case-insensitive,
whitespace-trimmed name match against the header; a QC-number column
that cannot be found by name is an error fatal to that organization's
pass, while the callsign column falls back to the first column when no
name matches (only an empty header record fails); within fetch_members
the detected header row always name-matches the callsign column at
index 0, so the fallback is never what resolves it there. -/
theorem csv_column_resolution :
    (∀ rows headers dataRows,
      findHeaderRow rows = some (headers, dataRows) →
      find_qc_number_column headers = none →
      fetch_members rows = .error "Could not find QC # column in CSV".toList) ∧
    (∀ headers i, List.findIdx? callsignNameMatch headers = some i →
      find_callsign_column headers = some i) ∧
    (∀ headers, List.findIdx? callsignNameMatch headers = none →
      headers ≠ [] → find_callsign_column headers = some 0) ∧
    (∀ headers, List.findIdx? callsignNameMatch headers = none →
      headers = [] → find_callsign_column headers = none) := by
  refine ⟨?_, ?_, ?_, ?_⟩
  · intro rows headers dataRows hh hqc
    have hcc : find_callsign_column headers = some 0 := by
      unfold find_callsign_column
      rw [findHeaderRow_name_match rows headers dataRows hh]
    unfold fetch_members
    rw [hh]
    simp only [hcc, hqc]
  · intro headers i h
    unfold find_callsign_column
    rw [h]
  · intro headers h hne
    unfold find_callsign_column
    rw [h]
    simp [hne]
  · intro headers h he
    unfold find_callsign_column
    rw [h]
    simp [he]

/-- Witness for the amended C2: a CSV whose header `Call, Name` has no
QC-number column name fails with the fatal column error. -/
theorem csv_column_resolution_witness :
    fetch_members [["Call".toList, "Name".toList],
      ["w6jsv".toList, "x".toList]] =
    .error "Could not find QC # column in CSV".toList :=
  csv_column_resolution.1
    [["Call".toList, "Name".toList], ["w6jsv".toList, "x".toList]]
    ["Call".toList, "Name".toList] [["w6jsv".toList, "x".toList]]
    (by rfl) (by rfl)

/-- Counterexample to C2 as stated: on the header record
`K4MW, John, 1` no field matches a callsign column name, yet
find_callsign_column resolves to column 0 instead of failing (the
source's own unit test asserts this fallback). -/
theorem find_callsign_column_fallback_no_error :
    List.findIdx? callsignNameMatch
      ["K4MW".toList, "John".toList, "1".toList] = none ∧
    find_callsign_column ["K4MW".toList, "John".toList, "1".toList] =
      some 0 := by
  exact ⟨by rfl, by rfl⟩

/-- C1 (code observation): prepare_org_update queues a PendingFile even
for a pass whose freshly rendered content differs from the remote file
only in the generation-timestamp line — content_changed reports no
change for exactly this pair, yet the pending file is produced, because
the source never invokes content_changed before queueing. -/
theorem prepare_org_update_queues_unchanged_content :
    content_changed
      (some (generate "*".toList "QRQ Crew".toList none
        "2026-10-11 00:00:00 UTC".toList [⟨"K4MW".toList, "1".toList, none⟩]))
      (generate "*".toList "QRQ Crew".toList none
        "2026-10-12 09:00:00 UTC".toList
        [⟨"K4MW".toList, "1".toList, none⟩]) = false ∧
    prepare_org_update
      ⟨"QRQ Crew".toList, "*".toList, "QRQ Crew".toList, "qrqcrew.txt".toList⟩
      false "2026-10-12 09:00:00 UTC".toList
      [⟨"K4MW".toList, "1".toList, none⟩] =
    some ⟨"qrqcrew.txt".toList,
      generate "*".toList "QRQ Crew".toList none
        "2026-10-12 09:00:00 UTC".toList [⟨"K4MW".toList, "1".toList, none⟩],
      "QRQ Crew".toList, 1⟩ := by
  exact ⟨by rfl, by rfl⟩

/-- C4: rendering the same member list twice, with timestamps free of
newlines (the source's `%Y-%m-%d %H:%M:%S UTC` format always is), and
comparing the two outputs with content_changed yields false: the
generation-timestamp comment is filtered from both sides before the
line comparison. -/
theorem generated_timestamp_not_diffed (emoji label : RStr)
    (url : Option RStr) (ts1 ts2 : RStr) (members : List Member)
    (h1 : '\n' ∉ ts1) (h2 : '\n' ∉ ts2) :
    content_changed (some (generate emoji label url ts1 members))
      (generate emoji label url ts2 members) = false := by
  have key : ∀ ts : RStr, '\n' ∉ ts →
      filteredLines (generate emoji label url ts members) =
        ((splitOnNl ("# ".toList ++ label ++
            " Callsign Notes for Ham2K PoLo".toList)).map stripCr).filter
          (fun l => !generatedMarker.isPrefixOf l) ++
        filteredLines (joinNl
          ((if (url.getD []).isEmpty then []
            else ["# ".toList ++ url.getD []]) ++
           ("# Do not edit manually - this file is auto-generated".toList ::
            [] :: (sortBy (fun a b => strLe a.callsign b.callsign) members).map
              (memberLine emoji label)))) := by
    intro ts hts
    have hno : '\n' ∉ "# Generated: ".toList ++ ts := by
      intro hm
      rcases List.mem_append.mp hm with hm | hm
      · exact absurd hm (by decide)
      · exact hts hm
    have hgen : generate emoji label url ts members =
        ("# ".toList ++ label ++ " Callsign Notes for Ham2K PoLo".toList) ++
          '\n' :: (("# Generated: ".toList ++ ts) ++
            '\n' :: joinNl
              ((if (url.getD []).isEmpty then []
                else ["# ".toList ++ url.getD []]) ++
               ("# Do not edit manually - this file is auto-generated".toList ::
                [] :: (sortBy (fun a b => strLe a.callsign b.callsign)
                  members).map (memberLine emoji label)))) := rfl
    rw [hgen]
    unfold filteredLines
    rw [rustLines_append_nl, rustLines_append_nl, splitOnNl_no_nl _ hno]
    rw [List.filter_append, List.filter_append]
    congr 1
    rw [List.map_cons, List.map_nil]
    rw [filter_generated_single ts]
    simp

  have e1 := key ts1 h1
  have e2 := key ts2 h2
  simp only [content_changed]
  rw [e1, e2]
  simp

/-- Witness for C4: two renders of the one-member QRQ Crew roster that
differ only in the timestamp compare as unchanged. -/
theorem generated_timestamp_not_diffed_witness :
    content_changed
      (some (generate "*".toList "QRQ Crew".toList none
        "2026-10-11 00:00:00 UTC".toList [⟨"W6JSV".toList, "10".toList, none⟩]))
      (generate "*".toList "QRQ Crew".toList none
        "2026-10-12 09:00:00 UTC".toList
        [⟨"W6JSV".toList, "10".toList, none⟩]) = false :=
  generated_timestamp_not_diffed "*".toList "QRQ Crew".toList none
    "2026-10-11 00:00:00 UTC".toList "2026-10-12 09:00:00 UTC".toList
    [⟨"W6JSV".toList, "10".toList, none⟩] (by decide) (by decide)

/-- Witness for C3: the spec scenario `Call, QC #` with rows
`w6jsv, 10`, `INVALID, 5`, `w6jsv, 20` parses to exactly one member
with a grammar-valid callsign. -/
theorem parsed_members_dedup_and_valid_witness :
    List.Pairwise
      (fun a b : CsvMember => rustUpper a.callsign ≠ rustUpper b.callsign)
      [⟨"W6JSV".toList, 10⟩] ∧
    ∀ m ∈ [(⟨"W6JSV".toList, 10⟩ : CsvMember)],
      is_valid_callsign m.callsign = true :=
  parsed_members_dedup_and_valid.1
    [["Call".toList, "QC #".toList],
     ["w6jsv".toList, "10".toList],
     ["INVALID".toList, "5".toList],
     ["w6jsv".toList, "20".toList]]
    [⟨"W6JSV".toList, 10⟩] (by rfl)

/-- C5: for every callsign c and nickname value n, immediately after
insert(c, n) the cache's get returns Some n for any case variant of c
(keys are uppercased, so lookups are case-insensitive); and once the
entry's age exceeds the 30-day TTL, get on that callsign returns None. -/
theorem cache_insert_get_and_ttl (cache : NicknameCache) (c cvar : RStr)
    (n : Option RStr) (now nowLater : Int)
    (hvar : rustUpper cvar = rustUpper c) (httl : cache.ttl = ttlSeconds) :
    NicknameCache.get now (NicknameCache.insert now cache c n) cvar = some n ∧
    (nowLater - now > ttlSeconds →
      NicknameCache.get nowLater (NicknameCache.insert now cache c n) cvar =
        none) := by
  constructor
  · unfold NicknameCache.get NicknameCache.insert
    dsimp only
    rw [hvar]
    simp [List.lookup, isExpired, httl, ttlSeconds]
  · intro hexp
    unfold NicknameCache.get NicknameCache.insert
    dsimp only
    rw [hvar]
    simp only [List.lookup, beq_self_eq_true, if_true]
    have : isExpired nowLater ⟨n, now⟩ cache.ttl = true := by
      simp [isExpired, httl]
      omega
    simp [this]

/-- Witness for C5: insert `w6jsv` then get `W6JSV` immediately and
after the TTL has elapsed. -/
theorem cache_insert_get_and_ttl_witness :
    NicknameCache.get 0
      (NicknameCache.insert 0 ⟨[], ttlSeconds, false⟩ "w6jsv".toList
        (some "Jay".toList)) "W6JSV".toList = some (some "Jay".toList) ∧
    NicknameCache.get (ttlSeconds + 1)
      (NicknameCache.insert 0 ⟨[], ttlSeconds, false⟩ "w6jsv".toList
        (some "Jay".toList)) "W6JSV".toList = none := by
  have h := cache_insert_get_and_ttl ⟨[], ttlSeconds, false⟩ "w6jsv".toList
    "W6JSV".toList (some "Jay".toList) 0 (ttlSeconds + 1) (by decide) rfl
  exact ⟨h.1, h.2 (by decide)⟩

/-- C9: loading the cache never fails at the process level: a missing
file or one with only-whitespace content yields the empty cache, any
load error (read failure or parse failure) falls back to the empty
cache in main, and every entry surviving a successful load is
unexpired (the 30-day TTL prune runs at load time). -/
theorem cache_load_never_fails (now : Int) (fs : FileState)
    (parse : RStr → Option (List (RStr × CacheEntry))) :
    NicknameCache.load now .missing parse = .ok ⟨[], ttlSeconds, false⟩ ∧
    (∀ s, (rustTrim s).isEmpty = true →
      NicknameCache.load now (.content s) parse =
        .ok ⟨[], ttlSeconds, false⟩) ∧
    (∀ e, NicknameCache.load now fs parse = .error e →
      mainLoadCache now fs parse = ⟨[], ttlSeconds, false⟩) ∧
    (∀ c, NicknameCache.load now fs parse = .ok c →
      mainLoadCache now fs parse = c ∧
      ∀ p ∈ c.entries, isExpired now p.2 ttlSeconds = false) := by
  refine ⟨rfl, ?_, ?_, ?_⟩
  · intro s h
    simp [NicknameCache.load, h]
  · intro e h
    unfold mainLoadCache
    rw [h]
  · intro c h
    constructor
    · unfold mainLoadCache
      rw [h]
    · intro p hp
      cases fs with
      | missing =>
        simp only [NicknameCache.load, Except.ok.injEq] at h
        rw [← h] at hp
        simp at hp
      | readErr => simp [NicknameCache.load] at h
      | content s =>
        simp only [NicknameCache.load] at h
        split at h
        · simp only [Except.ok.injEq] at h
          rw [← h] at hp
          simp at hp
        · split at h
          · simp at h
          · simp only [Except.ok.injEq] at h
            rw [← h] at hp
            simp only [List.mem_filter] at hp
            have := hp.2
            simp only [Bool.not_eq_true'] at this
            exact this

/-- Witness for C9: a read error on load yields the empty cache in
main rather than a failure. -/
theorem cache_load_never_fails_witness :
    mainLoadCache 0 .readErr (fun _ => none) = ⟨[], ttlSeconds, false⟩ :=
  (cache_load_never_fails 0 .readErr (fun _ => none)).2.2.1
    "Failed to read cache file".toList (by rfl)

/-- A Boolean prefix test certifies an append decomposition. -/
theorem isPrefixOf_exists_append {p l : RStr} (h : p.isPrefixOf l = true) :
    ∃ t, l = p ++ t := by
  induction p generalizing l with
  | nil => exact ⟨l, rfl⟩
  | cons c p' ih =>
    cases l with
    | nil => simp [List.isPrefixOf] at h
    | cons d l' =>
      simp only [List.isPrefixOf, Bool.and_eq_true, beq_iff_eq] at h
      obtain ⟨rfl, h'⟩ := h
      obtain ⟨t, ht⟩ := ih h'
      exact ⟨t, by rw [ht, List.cons_append]⟩

/-- findSub finds an actual occurrence. -/
theorem findSub_isPrefixOf_drop {n : RStr} :
    ∀ {h : RStr} {i : Nat}, findSub n h = some i →
      n.isPrefixOf (h.drop i) = true := by
  intro h
  induction h with
  | nil =>
    intro i hf
    unfold findSub at hf
    split at hf
    · next hp =>
      simp only [Option.some.injEq] at hf
      rw [← hf]
      simpa using hp
    · simp at hf
  | cons c t ih =>
    intro i hf
    unfold findSub at hf
    split at hf
    · next hp =>
      simp only [Option.some.injEq] at hf
      rw [← hf]
      simpa using hp
    · cases hft : findSub n t with
      | none => rw [hft] at hf; simp at hf
      | some j =>
        rw [hft] at hf
        simp only [Option.map_some', Option.some.injEq] at hf
        rw [← hf]
        simpa using ih hft

/-- findSub returns the first occurrence: an occurrence at offset `k`
bounds the result by `k`. -/
theorem findSub_exists_le {n : RStr} :
    ∀ (h : RStr) (k : Nat), n.isPrefixOf (h.drop k) = true →
      ∃ i, i ≤ k ∧ findSub n h = some i := by
  intro h
  induction h with
  | nil =>
    intro k hp
    rw [List.drop_nil] at hp
    refine ⟨0, Nat.zero_le k, ?_⟩
    unfold findSub
    rw [if_pos hp]
  | cons c t ih =>
    intro k hp
    cases k with
    | zero =>
      refine ⟨0, le_refl 0, ?_⟩
      unfold findSub
      rw [if_pos (by simpa using hp)]
    | succ k' =>
      by_cases hq : n.isPrefixOf (c :: t) = true
      · exact ⟨0, Nat.zero_le _, by unfold findSub; rw [if_pos hq]⟩
      · have hdrop : (c :: t).drop (k' + 1) = t.drop k' := rfl
        rw [hdrop] at hp
        obtain ⟨i, hik, hfs⟩ := ih k' hp
        refine ⟨i + 1, Nat.succ_le_succ hik, ?_⟩
        unfold findSub
        rw [if_neg hq, hfs]
        rfl

/-- The closing tag cannot begin inside the opening tag: in a string
beginning with `<fname>`, the first `</fname>` is at offset 7 or
later. -/
theorem close_offset_ge_seven {L : RStr} {e : Nat}
    (hp : "<fname>".toList.isPrefixOf L = true)
    (hq : "</fname>".toList.isPrefixOf (L.drop e) = true) : 7 ≤ e := by
  obtain ⟨rest, rfl⟩ := isPrefixOf_exists_append hp
  by_contra hlt
  push_neg at hlt
  interval_cases e <;> simp [List.isPrefixOf] at hq

/-- C6: whenever the first lookup request's response signals session
expiry or invalidity, the cached token is cleared and the lookup is
retried exactly once with a freshly obtained token (the request trace
grows by exactly the two tokens, the retry token coming from a new
login); a second consecutive expiry signal makes that lookup return
the fatal retry error with no third request and no cached session,
while a non-expiry retry response is processed normally under the
fresh token. -/
theorem lookup_session_expiry_retry_once (env : QrzEnv) (st st1 : QrzState)
    (key1 key2 : RStr)
    (h1 : get_session_key env st = (st1, .ok key1))
    (h2 : signalsSessionExpiry (env.respond key1) = true)
    (h3 : env.login st1.logins = .ok key2) :
    (lookup_nickname env st).1.requestTokens =
      st.requestTokens ++ [key1, key2] ∧
    (signalsSessionExpiry (env.respond key2) = true →
      (lookup_nickname env st).2 =
        .error "QRZ lookup failed after retries".toList ∧
      (lookup_nickname env st).1.session = none) ∧
    (signalsSessionExpiry (env.respond key2) = false →
      (lookup_nickname env st).1.session = some key2 ∧
      (lookup_nickname env st).2 =
        (if signalsNotFound (env.respond key2) = true then .ok none
         else .ok (extract_fname (env.respond key2)))) := by
  have hreq : st1.requestTokens = st.requestTokens := by
    unfold get_session_key at h1
    cases hs : st.session with
    | some k =>
      rw [hs] at h1
      simp only [Prod.mk.injEq] at h1
      rw [← h1.1]
    | none =>
      rw [hs] at h1
      cases hl : env.login st.logins with
      | ok k =>
        rw [hl] at h1
        simp only [Prod.mk.injEq] at h1
        rw [← h1.1]
      | error e =>
        rw [hl] at h1
        simp at h1
  have step0 : lookup_nickname_inner env st 0 =
      lookup_nickname_inner env
        ⟨none, st1.logins, st1.requestTokens ++ [key1]⟩ 1 := by
    rw [lookup_nickname_inner]
    rw [if_neg (by omega)]
    rw [h1]
    simp only [h2, if_true]
  by_cases h4 : signalsSessionExpiry (env.respond key2) = true
  · have step1 : lookup_nickname_inner env
        ⟨none, st1.logins, st1.requestTokens ++ [key1]⟩ 1 =
        lookup_nickname_inner env
          ⟨none, st1.logins + 1, st1.requestTokens ++ [key1, key2]⟩ 2 := by
      rw [lookup_nickname_inner]
      rw [if_neg (by omega)]
      rw [show get_session_key env
            ⟨none, st1.logins, st1.requestTokens ++ [key1]⟩ =
          (⟨some key2, st1.logins + 1, st1.requestTokens ++ [key1]⟩,
            .ok key2) by
        unfold get_session_key
        simp [h3]]
      simp only [h4, if_true]
      simp
    have step2 : lookup_nickname_inner env
        ⟨none, st1.logins + 1, st1.requestTokens ++ [key1, key2]⟩ 2 =
        (⟨none, st1.logins + 1, st1.requestTokens ++ [key1, key2]⟩,
          .error "QRZ lookup failed after retries".toList) := by
      rw [lookup_nickname_inner]
      rw [if_pos (by omega)]
    refine ⟨?_, fun _ => ⟨?_, ?_⟩, fun hcon => absurd h4 (by simp [hcon])⟩
    · show (lookup_nickname_inner env st 0).1.requestTokens = _
      rw [step0, step1, step2, hreq]
    · show (lookup_nickname_inner env st 0).2 = _
      rw [step0, step1, step2]
    · show (lookup_nickname_inner env st 0).1.session = _
      rw [step0, step1, step2]
  · have h4f : signalsSessionExpiry (env.respond key2) = false := by
      simpa using h4
    have step1 : lookup_nickname_inner env
        ⟨none, st1.logins, st1.requestTokens ++ [key1]⟩ 1 =
        (⟨some key2, st1.logins + 1, st1.requestTokens ++ [key1, key2]⟩,
          if signalsNotFound (env.respond key2) = true then .ok none
          else .ok (extract_fname (env.respond key2))) := by
      rw [lookup_nickname_inner]
      rw [if_neg (by omega)]
      rw [show get_session_key env
            ⟨none, st1.logins, st1.requestTokens ++ [key1]⟩ =
          (⟨some key2, st1.logins + 1, st1.requestTokens ++ [key1]⟩,
            .ok key2) by
        unfold get_session_key
        simp [h3]]
      dsimp only
      rw [h4f, if_neg (by simp)]
      split <;> simp_all
    refine ⟨?_, fun hcon => absurd hcon (by simp [h4f]), fun _ => ⟨?_, ?_⟩⟩
    · show (lookup_nickname_inner env st 0).1.requestTokens = _
      rw [step0, step1, hreq]
    · show (lookup_nickname_inner env st 0).1.session = _
      rw [step0, step1]
    · show (lookup_nickname_inner env st 0).2 = _
      rw [step0, step1]

/-- Witness for C6: a cached token whose lookup hits one expiry signal
is retried once with the freshly obtained token and the retry response
is processed (the request trace holds exactly the two tokens). -/
theorem lookup_session_expiry_retry_once_witness :
    (lookup_nickname
      ⟨fun _ => .ok "KEY2".toList,
       fun k => if k = "KEY1".toList then "Session Timeout".toList
                else "<fname>Mike</fname>".toList⟩
      ⟨some "KEY1".toList, 0, []⟩).1.requestTokens =
      ["KEY1".toList, "KEY2".toList] := by
  have h := lookup_session_expiry_retry_once
    ⟨fun _ => .ok "KEY2".toList,
     fun k => if k = "KEY1".toList then "Session Timeout".toList
              else "<fname>Mike</fname>".toList⟩
    ⟨some "KEY1".toList, 0, []⟩ ⟨some "KEY1".toList, 0, []⟩
    "KEY1".toList "KEY2".toList (by rfl) (by decide) (by rfl)
  simpa using h.1

/-- C10: for every lookup whose response carries no session-expiry and
no not-found signal, an absent `<fname>` element, or one whose first
occurrence is immediately closed (an empty first name), makes
lookup_nickname return Ok(None): an empty first name is treated as no
nickname, not as an error. -/
theorem lookup_empty_fname_ok_none (env : QrzEnv) (st st1 : QrzState)
    (key : RStr)
    (h1 : get_session_key env st = (st1, .ok key))
    (h2 : signalsSessionExpiry (env.respond key) = false)
    (h3 : signalsNotFound (env.respond key) = false)
    (h4 : findSub "<fname>".toList (env.respond key) = none ∨
          ∃ s, findSub "<fname>".toList (env.respond key) = some s ∧
            "</fname>".toList.isPrefixOf (((env.respond key).drop s).drop 7)
              = true) :
    (lookup_nickname env st).2 = .ok none := by
  have hpipe : (lookup_nickname env st).2 =
      .ok (extract_fname (env.respond key)) := by
    unfold lookup_nickname
    rw [lookup_nickname_inner]
    rw [if_neg (by omega)]
    rw [h1]
    dsimp only
    rw [h2, if_neg (by simp), h3, if_neg (by simp)]
  rw [hpipe]
  suffices hext : extract_fname (env.respond key) = none by rw [hext]
  rcases h4 with h4 | ⟨s, hs, hclose⟩
  · unfold extract_fname
    rw [h4]
  · have hopen := findSub_isPrefixOf_drop hs
    obtain ⟨e, he7, hfs⟩ := findSub_exists_le ((env.respond key).drop s) 7 hclose
    have hge := close_offset_ge_seven hopen (findSub_isPrefixOf_drop hfs)
    have he : e = 7 := le_antisymm he7 hge
    subst he
    unfold extract_fname
    simp only [hs]
    simp only [hfs]
    simp

/-- Witness for C10: a record whose first occurrence of `<fname>` is
immediately closed yields Ok(None). -/
theorem lookup_empty_fname_ok_none_witness :
    (lookup_nickname
      ⟨fun _ => .ok "K".toList,
       fun _ => "<Callsign><fname></fname></Callsign>".toList⟩
      ⟨some "K".toList, 0, []⟩).2 = .ok none :=
  lookup_empty_fname_ok_none
    ⟨fun _ => .ok "K".toList,
     fun _ => "<Callsign><fname></fname></Callsign>".toList⟩
    ⟨some "K".toList, 0, []⟩ ⟨some "K".toList, 0, []⟩ "K".toList
    (by rfl) (by decide) (by decide)
    (Or.inr ⟨10, by decide, by decide⟩)

/-- A grammar-valid callsign is nonempty. -/
theorem valid_callsign_ne_empty {s : RStr} (h : is_valid_callsign s = true) :
    s.isEmpty = false := by
  cases s with
  | nil => simp [is_valid_callsign] at h
  | cons c t => rfl

/-- C7 (amended): in HTML-table mode, a row whose trimmed, uppercased
callsign cell ends with `/SK` is dropped entirely; for every other row
with data cells and enough columns, everything after the first `/` is
stripped from the callsign before validation, and the row is kept with
the stripped callsign exactly when that remainder is a valid callsign
not already seen in this parse and the member-id cell is nonempty: an
invalid remainder, an already-seen remainder, or an empty member-id
cell each drop the row. -/
theorem html_silent_key_and_suffix_strip (ci ni : Nat) (seen : List RStr)
    (ms : List Member) (cells : List RStr)
    (hne : cells.isEmpty = false)
    (hlen : (decide (cells.length ≤ ci) || decide (cells.length ≤ ni))
      = false) :
    (rustEndsWith (rustUpper (rustTrim (cells.getD ci []))) "/SK".toList
        = true →
      htmlStep ci ni (seen, ms) cells = (seen, ms)) ∧
    (rustEndsWith (rustUpper (rustTrim (cells.getD ci []))) "/SK".toList
        = false →
      (is_valid_callsign (rustTrim
          ((rustUpper (rustTrim (cells.getD ci []))).takeWhile
            (fun c => c ≠ '/'))) = true →
        List.contains seen (rustTrim
          ((rustUpper (rustTrim (cells.getD ci []))).takeWhile
            (fun c => c ≠ '/'))) = false →
        (rustTrim (cells.getD ni [])).isEmpty = false →
        htmlStep ci ni (seen, ms) cells =
          (rustTrim ((rustUpper (rustTrim (cells.getD ci []))).takeWhile
              (fun c => c ≠ '/')) :: seen,
           ms ++ [⟨rustTrim ((rustUpper (rustTrim (cells.getD ci []))).takeWhile
              (fun c => c ≠ '/')), rustTrim (cells.getD ni []), none⟩])) ∧
      (is_valid_callsign (rustTrim
          ((rustUpper (rustTrim (cells.getD ci []))).takeWhile
            (fun c => c ≠ '/'))) = false →
        htmlStep ci ni (seen, ms) cells = (seen, ms)) ∧
      (List.contains seen (rustTrim
          ((rustUpper (rustTrim (cells.getD ci []))).takeWhile
            (fun c => c ≠ '/'))) = true →
        htmlStep ci ni (seen, ms) cells = (seen, ms)) ∧
      ((rustTrim (cells.getD ni [])).isEmpty = true →
        htmlStep ci ni (seen, ms) cells = (seen, ms))) := by
  unfold htmlStep
  dsimp only
  rw [if_neg (by simp [hne])]
  rw [if_neg (by simp [hlen])]
  refine ⟨?_, ?_⟩
  · intro hsk
    rw [if_pos hsk]
  · intro hsk
    rw [if_neg (by intro hcon; rw [hsk] at hcon; exact Bool.noConfusion hcon)]
    refine ⟨?_, ?_, ?_, ?_⟩
    · intro hv hseen hid
      rw [if_neg (by intro hcon
                     rw [valid_callsign_ne_empty hv] at hcon
                     exact Bool.noConfusion hcon)]
      rw [if_neg (by intro hcon; rw [hv] at hcon; exact Bool.noConfusion hcon)]
      rw [if_neg (by intro hcon; rw [hseen] at hcon
                     exact Bool.noConfusion hcon)]
      rw [if_neg (by intro hcon; rw [hid] at hcon; exact Bool.noConfusion hcon)]
    · intro hv
      by_cases hcse : (rustTrim ((rustUpper (rustTrim (cells.getD ci []))).takeWhile
          (fun c => c ≠ '/'))).isEmpty = true
      · rw [if_pos hcse]
      · rw [if_neg hcse, if_pos (by rw [hv]; rfl)]
    · intro hseen
      by_cases hcse : (rustTrim ((rustUpper (rustTrim (cells.getD ci []))).takeWhile
          (fun c => c ≠ '/'))).isEmpty = true
      · rw [if_pos hcse]
      · rw [if_neg hcse]
        by_cases hv : is_valid_callsign (rustTrim
            ((rustUpper (rustTrim (cells.getD ci []))).takeWhile
              (fun c => c ≠ '/'))) = true
        · rw [if_neg (by intro hcon; rw [hv] at hcon
                         exact Bool.noConfusion hcon)]
          rw [if_pos hseen]
        · rw [if_pos (by rw [Bool.not_eq_true] at hv; rw [hv]; rfl)]
    · intro hid
      by_cases hcse : (rustTrim ((rustUpper (rustTrim (cells.getD ci []))).takeWhile
          (fun c => c ≠ '/'))).isEmpty = true
      · rw [if_pos hcse]
      · rw [if_neg hcse]
        by_cases hv : is_valid_callsign (rustTrim
            ((rustUpper (rustTrim (cells.getD ci []))).takeWhile
              (fun c => c ≠ '/'))) = true
        · rw [if_neg (by intro hcon; rw [hv] at hcon
                         exact Bool.noConfusion hcon)]
          by_cases hseen : List.contains seen (rustTrim
              ((rustUpper (rustTrim (cells.getD ci []))).takeWhile
                (fun c => c ≠ '/'))) = true
          · rw [if_pos hseen]
          · rw [if_neg hseen]
            rw [if_pos hid]
        · rw [if_pos (by rw [Bool.not_eq_true] at hv; rw [hv]; rfl)]

/-- Witness for the amended C7: the Silent-Key row `3S, N6WK/SK` is
dropped entirely; the row `2, K4MW/P` is dropped when `K4MW` was
already seen; and a row whose member-id cell is blank is dropped even
though its stripped callsign `K4MW` is valid and fresh. -/
theorem html_silent_key_and_suffix_strip_witness :
    htmlStep 1 0 ([], []) ["3S".toList, "N6WK/SK".toList] = ([], []) ∧
    htmlStep 1 0 (["K4MW".toList], []) ["2".toList, "K4MW/P".toList] =
      (["K4MW".toList], []) ∧
    htmlStep 1 0 ([], []) ["  ".toList, "K4MW/P".toList] = ([], []) :=
  ⟨(html_silent_key_and_suffix_strip 1 0 [] [] ["3S".toList, "N6WK/SK".toList]
      (by rfl) (by rfl)).1 (by decide),
   (html_silent_key_and_suffix_strip 1 0 ["K4MW".toList] []
      ["2".toList, "K4MW/P".toList] (by rfl) (by rfl)).2 (by decide)
      |>.2.2.1 (by decide),
   (html_silent_key_and_suffix_strip 1 0 [] []
      ["  ".toList, "K4MW/P".toList] (by rfl) (by rfl)).2 (by decide)
      |>.2.2.2 (by decide)⟩

/-- Counterexample to C7 as stated: the row `2, K4MW/P` is not a
Silent-Key row and its stripped remainder `K4MW` is a valid callsign,
yet the row is not kept (here, because the callsign was already seen),
so keeping does not follow from validity of the remainder alone. -/
theorem html_valid_remainder_row_dropped :
    parse_html 1 0 [["1".toList, "K4MW".toList],
      ["2".toList, "K4MW/P".toList]] =
      [⟨"K4MW".toList, "1".toList, none⟩] ∧
    rustEndsWith (rustUpper (rustTrim "K4MW/P".toList)) "/SK".toList
      = false ∧
    is_valid_callsign (rustTrim
      ((rustUpper (rustTrim "K4MW/P".toList)).takeWhile
        (fun c => c ≠ '/'))) = true := by
  exact ⟨by rfl, by rfl, by rfl⟩

end Qrq
